import Mathlib

/-!
Verification of the retrieval-augmented answer-synthesis core of the
Insight-Hub repository.

The Python sources are shallowly embedded as executable Lean functions:

* `split_text_into_chunks`   — `PDFParser._split_text_into_chunks` (pdf_parser.py)
* `classify_question_type`   — `RAGSystem.classify_question_type` (rag_system.py)
* `add_documents`            — `VectorStore.add_documents` (vector_store.py)
* `retrieve_relevant_chunks` — `RAGSystem.retrieve_relevant_chunks` (rag_system.py)
* `generate_answer`          — `RAGSystem.generate_answer` (rag_system.py)

Text is modelled as `List Char`; Python floats (cosine distances) are
modelled as `ℚ`; the external LLM completion is modelled by passing the
raw completion text as an argument (`rawAnswer`), since the completion
service is an external collaborator.  `re.findall`/`re.sub` over the
pattern `\[Source\s+(\d+)\]` (IGNORECASE) are modelled by an explicit
left-to-right scanner over the ASCII fragment of the pattern classes
(`\s` as the six ASCII whitespace characters, `\d` as '0'..'9'), which
covers the behaviour on the answers the system manipulates.
-/

namespace InsightHub

/-! ### Character helpers -/

/-- The six ASCII characters matched by Python's `str.split()` whitespace
and by the `\s` class on ASCII text. -/
def isSpaceChar (c : Char) : Bool :=
  c == ' ' || c == '\t' || c == '\n' || c == '\r' || c == '\x0b' || c == '\x0c'

/-- Decimal digit character for a value `< 10` (used to model Python's
`str(int)` rendering inserted by the f-string `f"[Source {new}]"`). -/
def digitChar10 (d : Nat) : Char :=
  match d with
  | 0 => '0' | 1 => '1' | 2 => '2' | 3 => '3' | 4 => '4'
  | 5 => '5' | 6 => '6' | 7 => '7' | 8 => '8' | _ => '9'

/-- Decimal rendering of a natural number, fuel-driven
(`natDigits n = (Python) str(n)` as a character list). -/
def natDigitsGo : Nat → Nat → List Char
  | 0, n => [digitChar10 (n % 10)]
  | fuel+1, n =>
    if n < 10 then [digitChar10 n]
    else natDigitsGo fuel (n / 10) ++ [digitChar10 (n % 10)]

def natDigits (n : Nat) : List Char := natDigitsGo n n

/-- Value of a digit string, as computed by Python's `int(...)` on the
regex group `(\d+)`. -/
def digitsToNat (ds : List Char) : Nat :=
  ds.foldl (fun n c => 10 * n + (c.toNat - 48)) 0

/-! ### Chunker — `PDFParser._split_text_into_chunks` (pdf_parser.py lines 56-99) -/

/-- `text.split('. ')` on a character list: split at every non-overlapping
occurrence of the two-character separator `". "`, scanning left to right
and keeping empty pieces, exactly as Python's `str.split` with a
separator argument.  The result is always non-empty. -/
def splitDotSpace : List Char → List (List Char)
  | [] => [[]]
  | [c] => [[c]]
  | c1 :: c2 :: rest =>
    if c1 = '.' ∧ c2 = ' ' then [] :: splitDotSpace rest
    else
      let r := splitDotSpace (c2 :: rest)
      (c1 :: r.headI) :: r.tail

/-- The sentence-packing loop of `_split_text_into_chunks`
(lines 71-87): greedily accumulate `sentence + '. '` into
`current_chunk`, flushing when adding the sentence would exceed
`chunk_size` and the buffer is non-empty; flush a non-empty trailing
buffer at the end. -/
def packGo (chunkSize : Nat) : List (List Char) → List Char → List (List Char)
  | [], cur => if cur = [] then [] else [cur]
  | s :: ss, cur =>
    if chunkSize < cur.length + s.length ∧ cur ≠ [] then
      cur :: packGo chunkSize ss (s ++ ['.', ' '])
    else
      packGo chunkSize ss (cur ++ (s ++ ['.', ' ']))

/-- The character-boundary fallback split
(`for i in range(0, len(chunk), chunk_size)`, lines 96-97), fuel-driven;
`fuel = s.length` always suffices. -/
def charSplitGo : Nat → List Char → Nat → List (List Char)
  | 0, _, _ => []
  | fuel+1, s, k =>
    if s.length = 0 then []
    else s.take k :: charSplitGo fuel (s.drop k) k

def charSplit (s : List Char) (k : Nat) : List (List Char) := charSplitGo s.length s k

/-- `PDFParser._split_text_into_chunks(text, chunk_size)` (lines 56-99).
Newlines are flattened to spaces, the text is split on `". "`, the
sentences are greedily packed, and any packed chunk still longer than
`chunk_size` is hard-split at `chunk_size`-character boundaries. -/
def split_text_into_chunks (text : List Char) (chunkSize : Nat) : List (List Char) :=
  if text.length ≤ chunkSize then [text]
  else
    let sentences := splitDotSpace (text.map (fun c => if c = '\n' then ' ' else c))
    let chunks := packGo chunkSize sentences []
    chunks.flatMap (fun c => if c.length ≤ chunkSize then [c] else charSplit c chunkSize)

/-! ### Retrieval classifier — `RAGSystem.classify_question_type`
(rag_system.py lines 328-367) -/

def summary_keywords : List (List Char) :=
  ["summary".toList, "summarize".toList, "overview".toList, "main points".toList,
   "key findings".toList, "conclusion".toList, "what is the gist".toList,
   "briefly explain".toList]

def procedure_keywords : List (List Char) :=
  ["step".toList, "steps".toList, "process".toList, "procedure".toList,
   "how to".toList, "how do".toList, "method".toList, "way".toList,
   "list".toList, "sequence".toList, "order".toList, "workflow".toList]

def compare_keywords : List (List Char) :=
  ["compare".toList, "difference".toList, "different".toList, "versus".toList,
   "vs".toList, "vs.".toList, "similar".toList, "similarity".toList,
   "analyze".toList, "analysis".toList, "contrast".toList,
   "relationship".toList, "between".toList]

def fact_keywords : List (List Char) :=
  ["what is".toList, "what are".toList, "who is".toList, "when".toList,
   "where".toList, "which".toList, "define".toList, "definition".toList,
   "meaning".toList]

/-- `question.lower()` on the ASCII fragment. -/
def lowerChars (s : List Char) : List Char := s.map Char.toLower

/-- `any(keyword in question_lower for keyword in keywords)`:
Python's `in` on strings is raw substring containment. -/
def kwHit (kws : List (List Char)) (ql : List Char) : Bool :=
  kws.any (fun k => decide (k <:+: ql))

/-- Word counter for `len(question.split())`: number of maximal runs of
non-whitespace characters. -/
def countWordsGo : List Char → Bool → Nat
  | [], _ => 0
  | c :: rest, inWord =>
    if isSpaceChar c then countWordsGo rest false
    else (if inWord then 0 else 1) + countWordsGo rest true

def countWords (s : List Char) : Nat := countWordsGo s false

/-- `RAGSystem.classify_question_type` (lines 328-367): case-insensitive
keyword matching in fixed priority order with fixed retrieval counts. -/
def classify_question_type (question : List Char) : String × Nat :=
  let ql := lowerChars question
  if kwHit summary_keywords ql then ("Summary", 40)
  else if kwHit procedure_keywords ql then ("Procedure", 40)
  else if kwHit compare_keywords ql then ("Compare/Analyze", 30)
  else if kwHit fact_keywords ql ∧ countWords question < 10 then ("Fact", 8)
  else ("Default", 25)

/-! ### Vector store — `VectorStore.add_documents` (vector_store.py lines 42-77) -/

/-- A parsed document chunk as produced by `PDFParser.parse_pdf`;
`total_pages` is optional because `add_documents` reads it with
`chunk.get('total_pages', 0)`. -/
structure DocChunk where
  text : List Char
  page : Nat
  chunk_index : Nat
  total_pages : Option Nat
deriving DecidableEq

/-- The metadata dict built for each chunk in `add_documents`
(lines 55-63). -/
structure StoredMeta where
  pdf_filename : String
  page : Nat
  chunk_index : Nat
  total_pages : Nat
deriving DecidableEq

/-- The payload handed to the external store's `collection.add`
(lines 72-77); the generated `uuid4` ids are opaque and not modelled. -/
structure AddRequest where
  documents : List (List Char)
  metadatas : List StoredMeta
  embeddings : List (List ℚ)
deriving DecidableEq

/-- `VectorStore.add_documents(chunks, pdf_filename, embeddings)`
(lines 42-77).  Builds texts and metadatas, then raises
`ValueError("Embeddings are required. ...")` when `embeddings is None`,
and otherwise forwards everything, embeddings verbatim, to the external
collection. -/
def add_documents (chunks : List DocChunk) (pdf_filename : String)
    (embeddings : Option (List (List ℚ))) : Except String AddRequest :=
  let texts := chunks.map (·.text)
  let metadatas := chunks.map (fun c =>
    { pdf_filename := pdf_filename
      page := c.page
      chunk_index := c.chunk_index
      total_pages := c.total_pages.getD 0 : StoredMeta })
  match embeddings with
  | none => .error "Embeddings are required. Please provide embeddings when adding documents."
  | some es => .ok { documents := texts, metadatas := metadatas, embeddings := es }

/-! ### Retrieval — `RAGSystem.retrieve_relevant_chunks`
(rag_system.py lines 83-123) -/

/-- Chunk metadata as stored by `VectorStore.add_documents`; every query
result's metadata carries all four keys. -/
structure ChunkMeta where
  pdf_filename : String
  page : Nat
  chunk_index : Nat
  total_pages : Nat
deriving DecidableEq

instance : Inhabited ChunkMeta := ⟨⟨"", 0, 0, 0⟩⟩

/-- One element of the `retrieved_chunks` list built in
`retrieve_relevant_chunks` (lines 116-121). -/
structure RetrievedChunk where
  text : List Char
  metadata : ChunkMeta
  distance : Option ℚ
deriving DecidableEq

/-- The dictionary returned by `VectorStore.query` (one inner list per
query embedding).  `distances = none` models a falsy or absent
`results['distances']`. -/
structure QueryResults where
  documents : List (List (List Char))
  metadatas : List (List ChunkMeta)
  distances : Option (List (List ℚ))

/-- `results['distances'][0]` when `'distances' in results and
results['distances']` is truthy, else `None` (line 109). -/
def firstDistances (results : QueryResults) : Option (List ℚ) :=
  match results.distances with
  | none => none
  | some [] => none
  | some (ds0 :: _) => some ds0

/-- The similarity-threshold condition of line 115:
`distance is None or distance < 0.8`. -/
def keepDist (d : Option ℚ) : Bool :=
  match d with
  | none => true
  | some q => decide (q < 4/5)

/-- The chunk dict built at loop index `i` (lines 116-120).  Indexing
past the end of an aligned result list cannot happen for well-formed
store output and is modelled by defaults. -/
def chunkAt (docs0 : List (List Char)) (metas0 : List ChunkMeta)
    (dist0 : Option (List ℚ)) (i : Nat) : RetrievedChunk :=
  { text := docs0.getD i []
    metadata := metas0.getD i default
    distance := dist0.bind (fun ds => ds.get? i) }

/-- `RAGSystem.retrieve_relevant_chunks` post-query filtering
(lines 106-123): walk `results['documents'][0]` and keep each chunk
whose distance is absent or `< 0.8`. -/
def retrieve_relevant_chunks (results : QueryResults) : List RetrievedChunk :=
  match results.documents with
  | [] => []
  | docs0 :: _ =>
    if 0 < docs0.length then
      (List.range docs0.length).filterMap (fun i =>
        let c := chunkAt docs0 results.metadatas.headI (firstDistances results) i
        if keepDist c.distance then some c else none)
    else []

/-! ### Context assembly — `RAGSystem.generate_answer`
(rag_system.py lines 142-184) -/

/-- Value of the `unique_sources` dict (line 144): the source number, the
chunk texts in encounter order, and the citation fields. -/
structure SourceInfo where
  source_num : Nat
  chunks : List (List Char)
  pdf_filename : String
  page : Nat
deriving DecidableEq

/-- The deduplication key `(pdf_filename, page)` (line 152). -/
def chunkKey (c : RetrievedChunk) : String × Nat :=
  (c.metadata.pdf_filename, c.metadata.page)

/-- Line 156: `unique_sources[source_key]['chunks'].append(chunk['text'])`,
on the association-list model of the insertion-ordered dict. -/
def accUpdate (acc : List ((String × Nat) × SourceInfo)) (key : String × Nat)
    (t : List Char) : List ((String × Nat) × SourceInfo) :=
  acc.map (fun p => if p.1 = key then (p.1, { p.2 with chunks := p.2.chunks ++ [t] }) else p)

/-- The grouping loop of lines 147-165, with the insertion-ordered
Python dict modelled as an association list: a chunk whose key was seen
before appends its text to that entry, a new key is appended at the end
with the next source number. -/
def buildSourcesGo : List RetrievedChunk → List ((String × Nat) × SourceInfo) → Nat →
    List ((String × Nat) × SourceInfo)
  | [], acc, _ => acc
  | c :: cs, acc, counter =>
    if acc.any (fun p => decide (p.1 = chunkKey c)) then
      buildSourcesGo cs (accUpdate acc (chunkKey c) c.text) counter
    else
      buildSourcesGo cs
        (acc ++ [(chunkKey c,
          { source_num := counter, chunks := [c.text],
            pdf_filename := c.metadata.pdf_filename, page := c.metadata.page })])
        (counter + 1)

def buildSources (chunks : List RetrievedChunk) : List ((String × Nat) × SourceInfo) :=
  buildSourcesGo chunks [] 1

/-- A citation dict (lines 177-182). -/
structure Citation where
  source : Nat
  pdf_filename : String
  page : Nat
  text_snippet : List Char
deriving DecidableEq

/-- The snippet rule of line 176: first chunk truncated to 200
characters with an appended ellipsis when longer. -/
def mkSnippet (chunks : List (List Char)) : List Char :=
  let c0 := chunks.headI
  if 200 < c0.length then c0.take 200 ++ "...".toList else c0

/-- The citation list built from `unique_sources` in dict order
(lines 168-182). -/
def mkCitations (sources : List ((String × Nat) × SourceInfo)) : List Citation :=
  sources.map (fun p =>
    { source := p.2.source_num, pdf_filename := p.2.pdf_filename,
      page := p.2.page, text_snippet := mkSnippet p.2.chunks })

/-- The context lines `"[Source {n} - Page {p}]: {combined}"` where
`combined = " ".join(chunks)` (lines 172-173). -/
def contextParts (sources : List ((String × Nat) × SourceInfo)) : List (List Char) :=
  sources.map (fun p =>
    "[Source ".toList ++ natDigits p.2.source_num ++ " - Page ".toList ++
      natDigits p.2.page ++ "]: ".toList ++ List.intercalate [' '] p.2.chunks)

/-! ### Citation markers — the regex `\[Source\s+(\d+)\]` with
`re.IGNORECASE` (rag_system.py lines 283-318) -/

def sourceWord : List Char := ['s', 'o', 'u', 'r', 'c', 'e']

/-- Case-insensitive literal matching: consume `pat` from the front of
the input, comparing lowered characters; return the remainder. -/
def matchCaseless : List Char → List Char → Option (List Char)
  | [], s => some s
  | _ :: _, [] => none
  | p :: ps, c :: cs => if c.toLower = p then matchCaseless ps cs else none

structure MarkerMatch where
  matched : List Char
  digits : List Char
  rest : List Char
deriving DecidableEq

/-- Attempt to match `\[Source\s+(\d+)\]` (IGNORECASE) at the head of
the input; on success return the matched text (`group(0)`), the digit
group (`group(1)`) and the remaining input.  `\s+` and `\d+` are greedy,
and since the three character classes involved are pairwise disjoint the
greedy match is the unique one. -/
def matchMarker : List Char → Option MarkerMatch
  | '[' :: rest =>
    match matchCaseless sourceWord rest with
    | none => none
    | some r1 =>
      let sp := r1.takeWhile isSpaceChar
      let r2 := r1.dropWhile isSpaceChar
      if sp.isEmpty then none
      else
        let ds := r2.takeWhile Char.isDigit
        let r3 := r2.dropWhile Char.isDigit
        if ds.isEmpty then none
        else
          match r3 with
          | ']' :: r4 => some ⟨'[' :: (rest.take 6 ++ sp ++ ds ++ [']']), ds, r4⟩
          | _ => none
  | _ => none

/-- `re.findall(source_pattern, answer, re.IGNORECASE)` (line 287):
left-to-right scan collecting the digit groups of all non-overlapping
matches.  Fuel-driven; `fuel = s.length` always suffices because every
match consumes at least one character. -/
def findMarkersGo : Nat → List Char → List (List Char)
  | 0, _ => []
  | _, [] => []
  | fuel+1, c :: rest =>
    match matchMarker (c :: rest) with
    | some m => m.digits :: findMarkersGo fuel m.rest
    | none => findMarkersGo fuel rest

def findMarkers (s : List Char) : List (List Char) := findMarkersGo s.length s

/-- The replacement text `f"[Source {newNum}]"` (line 315). -/
def markerText (n : Nat) : List Char :=
  '[' :: ("Source ".toList ++ natDigits n ++ [']'])

/-- `re.sub(source_pattern, replace_source, answer, flags=re.IGNORECASE)`
(lines 312-318): each match whose integer is in the remap is replaced by
`[Source {new}]`, any other match is kept verbatim (`match.group(0)`). -/
def substMarkersGo (remap : Nat → Option Nat) : Nat → List Char → List Char
  | 0, _ => []
  | _, [] => []
  | fuel+1, c :: rest =>
    match matchMarker (c :: rest) with
    | some m =>
      (match remap (digitsToNat m.digits) with
       | some newNum => markerText newNum
       | none => m.matched) ++ substMarkersGo remap fuel m.rest
    | none => c :: substMarkersGo remap fuel rest

def substMarkers (remap : Nat → Option Nat) (s : List Char) : List Char :=
  substMarkersGo remap s.length s

/-! ### Citation reconciliation — `RAGSystem.generate_answer`
(rag_system.py lines 125-326) -/

/-- `cited_source_numbers` (lines 284-292) as a list; the Python set is
only used for emptiness and membership tests, for which the list is
equivalent. -/
def citedSourceNumbers (answer : List Char) (citations : List Citation) : List Nat :=
  ((findMarkers answer).map digitsToNat).filter
    (fun n => citations.any (fun c => decide (c.source = n)))

/-- The citation list built in `generate_answer` before reconciliation
(lines 142-182). -/
def assembledCitations (context_chunks : List RetrievedChunk) : List Citation :=
  mkCitations (buildSources context_chunks)

/-- `filtered_citations` (lines 298-301): keep only citations whose
source number was cited. -/
def filteredCitations (citations : List Citation) (cited : List Nat) : List Citation :=
  citations.filter (fun c => decide (c.source ∈ cited))

/-- `filtered_citations.sort(key=lambda x: x['source'])` (line 303);
the citations being sorted carry pairwise-distinct source numbers, so
any ascending sort agrees with Python's stable sort. -/
def sortCitations (l : List Citation) : List Citation :=
  l.insertionSort (fun a b => a.source ≤ b.source)

/-- The `source_remap` dict built in lines 305-309: the citation with
original number `old` sits at position `idx-1` of the sorted filtered
list and is remapped to `idx`.  Source numbers in the list are distinct,
so the first index is the only one. -/
def sourceRemap (sorted : List Citation) (old : Nat) : Option Nat :=
  (sorted.findIdx? (fun c => decide (c.source = old))).map (· + 1)

/-- The renumbering loop of lines 306-309: the `idx`-th citation of the
sorted filtered list gets `source := idx` (1-based). -/
def renumberCitations (sorted : List Citation) : List Citation :=
  sorted.enum.map (fun p => { p.2 with source := p.1 + 1 })

/-- The result dict of `generate_answer`. -/
structure GAResult where
  answer : List Char
  citations : List Citation
deriving DecidableEq

/-- The fixed no-context answer of lines 136-140. -/
def noRelevantInfoAnswer : List Char :=
  "I couldn't find relevant information in the uploaded PDFs to answer your question.".toList

/-- `RAGSystem.generate_answer(question, context_chunks, question_type)`
(lines 125-326).  `rawAnswer` is the text returned by the external LLM
completion; it is a parameter because the completion service is an
external collaborator.  The question and question type shape only the
prompt sent to the LLM (lines 186-261) and therefore only influence
`rawAnswer`; they do not otherwise affect the returned value, so the
post-processing is a function of `context_chunks` and `rawAnswer`. -/
def generate_answer (question : List Char) (context_chunks : List RetrievedChunk)
    (question_type : String) (rawAnswer : List Char) : GAResult :=
  if context_chunks = [] then
    { answer := noRelevantInfoAnswer, citations := [] }
  else
    let citations := assembledCitations context_chunks
    let cited := citedSourceNumbers rawAnswer citations
    if cited = [] then
      { answer := rawAnswer, citations := citations }
    else
      let sorted := sortCitations (filteredCitations citations cited)
      { answer := substMarkers (sourceRemap sorted) rawAnswer
        citations := renumberCitations sorted }

/-! ### Concrete inputs used by witness statements -/

/-- Two retrieved chunks sharing one `(pdf_filename, page)` key but with
different texts. -/
def exampleChunksSameKey : List RetrievedChunk :=
  [{ text := ['t', '1'],
     metadata := { pdf_filename := "a.pdf", page := 1, chunk_index := 0, total_pages := 1 },
     distance := none },
   { text := ['t', '2'],
     metadata := { pdf_filename := "a.pdf", page := 1, chunk_index := 1, total_pages := 1 },
     distance := none }]

/-- A raw LLM answer citing sources 2 and 3 (3 twice) and an unknown
source 9. -/
def exampleRawAnswer : List Char :=
  "See [Source 2] and [Source 3], then [Source 3]; bogus [Source 9].".toList

/-- Three retrieved chunks over three distinct `(pdf_filename, page)`
keys. -/
def exampleChunksThree : List RetrievedChunk :=
  [{ text := ['t', '1'],
     metadata := { pdf_filename := "a.pdf", page := 1, chunk_index := 0, total_pages := 3 },
     distance := none },
   { text := ['t', '2'],
     metadata := { pdf_filename := "a.pdf", page := 2, chunk_index := 0, total_pages := 3 },
     distance := none },
   { text := ['t', '3'],
     metadata := { pdf_filename := "b.pdf", page := 5, chunk_index := 0, total_pages := 7 },
     distance := none }]

/-! ### Specification-side helper for stating the grouping claim -/

/-- First-occurrence deduplication, used to *state* that `buildSources`
keeps one entry per `(pdf_filename, page)` key in first-seen order. -/
def firstSeenDedup (l : List (String × Nat)) : List (String × Nat) :=
  l.foldl (fun acc k => if k ∈ acc then acc else acc ++ [k]) []

/-! ## Theorems -/

/-! ### C6 — short texts come back as a single chunk; the empty text
comes back as `[""]`, not as the empty sequence -/

/-- C6 (amended part): for every text and target size, if
`len(text) <= target_size` the chunker returns exactly the one-element
sequence `[text]` (pdf_parser.py lines 68-69). -/
theorem chunker_short_text_single_chunk (text : List Char) (chunkSize : Nat)
    (h : text.length ≤ chunkSize) :
    split_text_into_chunks text chunkSize = [text] := by
  simp [split_text_into_chunks, h]

theorem chunker_short_text_single_chunk_witness :
    ("ab".toList.length ≤ 500) ∧ split_text_into_chunks "ab".toList 500 = ["ab".toList] :=
  ⟨by decide, chunker_short_text_single_chunk _ _ (by decide)⟩

/-- C6 (counterexample): the claim that the chunker returns the empty
sequence on zero-length input is false — `_split_text_into_chunks("",
500)` takes the `len(text) <= chunk_size` branch and returns `[""]`,
a one-element sequence. -/
theorem chunker_empty_text_counterexample :
    split_text_into_chunks ([] : List Char) 500 ≠ ([] : List (List Char)) := by
  decide

/-! ### C7 — empty context short-circuits `generate_answer` -/

/-- C7: for every question, question type and LLM completion, calling
`generate_answer` with an empty `context_chunks` list returns the fixed
"couldn't find relevant information" answer with an empty citation
list (rag_system.py lines 136-140).  The result is the same for every
possible completion text `rawAnswer`, which is the shallow-embedding
statement that the LLM is never consulted in this case. -/
theorem generate_answer_empty_context (question : List Char) (question_type : String)
    (rawAnswer : List Char) :
    generate_answer question [] question_type rawAnswer =
      { answer := noRelevantInfoAnswer, citations := [] } := rfl

/-! ### C8 — `add_documents` requires supplied embeddings but performs
no length check -/

/-- C8 (counterexample): the claim that `add_documents` fails whenever
`len(embeddings) != len(chunks)` is false — with one chunk and an empty
embeddings list the call succeeds, forwarding the mismatched embeddings
to the external collection unchecked (vector_store.py lines 69-77 check
only `embeddings is None`). -/
theorem add_documents_length_mismatch_counterexample :
    add_documents [{ text := ['a'], page := 1, chunk_index := 0, total_pages := some 1 }]
        "f.pdf" (some []) =
      .ok { documents := [['a']],
            metadatas := [{ pdf_filename := "f.pdf", page := 1, chunk_index := 0,
                            total_pages := 1 }],
            embeddings := [] }
    ∧ ([] : List (List ℚ)).length ≠
        [({ text := ['a'], page := 1, chunk_index := 0, total_pages := some 1 } : DocChunk)].length := by
  exact ⟨rfl, by decide⟩

/-- C8 (amended): `add_documents` fails with the
"Embeddings are required" `ValueError` exactly when embeddings are not
supplied; when embeddings are supplied — of any length, matching or not
— the add proceeds and the supplied embeddings are forwarded verbatim
(never recomputed). -/
theorem add_documents_requires_embeddings (chunks : List DocChunk) (fn : String) :
    (add_documents chunks fn none =
      .error "Embeddings are required. Please provide embeddings when adding documents.")
    ∧ ∀ es : List (List ℚ), ∃ req : AddRequest,
        add_documents chunks fn (some es) = .ok req ∧
        req.embeddings = es ∧ req.documents = chunks.map (·.text) := by
  refine ⟨rfl, fun es => ⟨_, rfl, rfl, rfl⟩⟩

/-! ### C2 — the similarity-threshold filter of
`retrieve_relevant_chunks` -/

/-- `filterMap` with a filtering body is `map` followed by `filter`. -/
theorem filterMap_if_eq_filter_map {α β : Type} (l : List α) (f : α → β) (p : β → Bool) :
    (l.filterMap fun i => if p (f i) then some (f i) else none) = (l.map f).filter p := by
  induction l with
  | nil => rfl
  | cons a l ih =>
    by_cases h : p (f a) <;> simp [List.filterMap_cons, h, ih]

/-- C2: `retrieve_relevant_chunks` keeps a retrieved chunk exactly when
its distance is absent or strictly below `0.8` (rag_system.py line 115):
the output is the positional chunk list filtered by `keepDist`, and the
threshold condition holds `none`, excludes distance `0.8` exactly, and
includes `0.79`. -/
theorem retrieve_filters_by_threshold (results : QueryResults)
    (docs0 : List (List Char)) (drest : List (List (List Char)))
    (h : results.documents = docs0 :: drest) :
    retrieve_relevant_chunks results =
      ((List.range docs0.length).map
        (chunkAt docs0 results.metadatas.headI (firstDistances results))).filter
        (fun c => keepDist c.distance)
    ∧ keepDist none = true
    ∧ keepDist (some (79/100)) = true
    ∧ keepDist (some (4/5)) = false := by
  refine ⟨?_, rfl, ?_, ?_⟩
  · rw [retrieve_relevant_chunks, h]
    by_cases h0 : 0 < docs0.length
    · simp only [h0, if_true]
      exact filterMap_if_eq_filter_map (List.range docs0.length)
        (chunkAt docs0 results.metadatas.headI (firstDistances results))
        (fun c => keepDist c.distance)
    · have : docs0.length = 0 := by omega
      simp [h0, this]
  · simp only [keepDist, decide_eq_true_eq]
    norm_num
  · simp only [keepDist, decide_eq_false_iff_not]
    norm_num

theorem retrieve_filters_by_threshold_witness :
    ({ documents := [[['a'], ['b']]], metadatas := [[default, default]],
       distances := some [[(1:ℚ)/2, (9:ℚ)/10]] } : QueryResults).documents = [['a'], ['b']] :: []
    ∧ (retrieve_relevant_chunks
        { documents := [[['a'], ['b']]], metadatas := [[default, default]],
          distances := some [[(1:ℚ)/2, (9:ℚ)/10]] } =
      ((List.range ([['a'], ['b']] : List (List Char)).length).map
        (chunkAt [['a'], ['b']]
          ({ documents := [[['a'], ['b']]], metadatas := [[default, default]],
             distances := some [[(1:ℚ)/2, (9:ℚ)/10]] } : QueryResults).metadatas.headI
          (firstDistances
            { documents := [[['a'], ['b']]], metadatas := [[default, default]],
              distances := some [[(1:ℚ)/2, (9:ℚ)/10]] }))).filter
        (fun c => keepDist c.distance)
      ∧ keepDist none = true
      ∧ keepDist (some (79/100)) = true
      ∧ keepDist (some (4/5)) = false) :=
  ⟨rfl, retrieve_filters_by_threshold _ _ _ rfl⟩

/-! ### C4 — the question classifier: fixed priority order, fixed
counts -/

/-- C4: `classify_question_type` is a pure function of the question
text that tests the keyword groups case-insensitively in the fixed
priority order Summary, Procedure, Compare/Analyze, Fact (the latter
additionally requiring fewer than 10 words), then Default, the first
match winning, with the fixed counts 40/40/30/8/25 (rag_system.py
lines 328-367).  Determinism is inherent: the embedding is a pure
function, so two calls on the same question agree definitionally. -/
theorem classify_priority_and_counts (q : List Char) :
    (kwHit summary_keywords (lowerChars q) = true →
      classify_question_type q = ("Summary", 40))
    ∧ (kwHit summary_keywords (lowerChars q) = false →
       kwHit procedure_keywords (lowerChars q) = true →
      classify_question_type q = ("Procedure", 40))
    ∧ (kwHit summary_keywords (lowerChars q) = false →
       kwHit procedure_keywords (lowerChars q) = false →
       kwHit compare_keywords (lowerChars q) = true →
      classify_question_type q = ("Compare/Analyze", 30))
    ∧ (kwHit summary_keywords (lowerChars q) = false →
       kwHit procedure_keywords (lowerChars q) = false →
       kwHit compare_keywords (lowerChars q) = false →
       kwHit fact_keywords (lowerChars q) = true → countWords q < 10 →
      classify_question_type q = ("Fact", 8))
    ∧ (kwHit summary_keywords (lowerChars q) = false →
       kwHit procedure_keywords (lowerChars q) = false →
       kwHit compare_keywords (lowerChars q) = false →
       (kwHit fact_keywords (lowerChars q) = false ∨ ¬ countWords q < 10) →
      classify_question_type q = ("Default", 25)) := by
  refine ⟨fun h1 => ?_, fun h1 h2 => ?_, fun h1 h2 h3 => ?_,
    fun h1 h2 h3 h4 h5 => ?_, fun h1 h2 h3 h4 => ?_⟩
  · simp [classify_question_type, h1]
  · simp [classify_question_type, h1, h2]
  · simp [classify_question_type, h1, h2, h3]
  · simp [classify_question_type, h1, h2, h3, h4, h5]
  · rcases h4 with h4 | h4 <;> simp [classify_question_type, h1, h2, h3, h4]

/-- Witness for C4, also checking the claim's priority example:
"Summarize the steps" contains both a Summary keyword ("summarize") and
a Procedure keyword ("step"), and is classified Summary. -/
theorem classify_priority_and_counts_witness :
    kwHit summary_keywords (lowerChars "Summarize the steps".toList) = true
    ∧ kwHit procedure_keywords (lowerChars "Summarize the steps".toList) = true
    ∧ classify_question_type "Summarize the steps".toList = ("Summary", 40) :=
  ⟨by decide, by decide,
    (classify_priority_and_counts "Summarize the steps".toList).1 (by decide)⟩

/-! ### C10 — keyword matching is raw substring containment, not
whole-word matching -/

/-- C10: the classifier tests keywords by substring containment in the
lowercased question, so a keyword buried inside a longer word fires:
any question whose lowercased text contains "always" (which contains
the Procedure keyword "way") and no Summary keyword is classified
`('Procedure', 40)`, and any question whose lowercased text contains a
word containing "different" is classified `('Compare/Analyze', 30)`
when no Summary or Procedure keyword occurs. -/
theorem classify_substring_matching :
    (∀ q : List Char, kwHit summary_keywords (lowerChars q) = false →
      "always".toList <:+: lowerChars q →
      classify_question_type q = ("Procedure", 40))
    ∧ (∀ (q w : List Char), kwHit summary_keywords (lowerChars q) = false →
      kwHit procedure_keywords (lowerChars q) = false →
      "different".toList <:+: w → w <:+: lowerChars q →
      classify_question_type q = ("Compare/Analyze", 30)) := by
  constructor
  · intro q h1 h2
    have hway : "way".toList <:+: lowerChars q :=
      List.IsInfix.trans (by decide) h2
    have hp : kwHit procedure_keywords (lowerChars q) = true := by
      simp only [kwHit, List.any_eq_true, decide_eq_true_eq]
      exact ⟨"way".toList, by simp [procedure_keywords], hway⟩
    simp [classify_question_type, h1, hp]
  · intro q w h1 h2 h3 h4
    have hdiff : "different".toList <:+: lowerChars q := List.IsInfix.trans h3 h4
    have hc : kwHit compare_keywords (lowerChars q) = true := by
      simp only [kwHit, List.any_eq_true, decide_eq_true_eq]
      exact ⟨"different".toList, by simp [compare_keywords], hdiff⟩
    simp [classify_question_type, h1, h2, hc]

theorem classify_substring_matching_witness :
    kwHit summary_keywords (lowerChars "always".toList) = false
    ∧ classify_question_type "always".toList = ("Procedure", 40) :=
  ⟨by decide, classify_substring_matching.1 "always".toList (by decide) (by decide)⟩

/-! ### C9 — what concatenating the chunker's output reconstructs -/

theorem splitDotSpace_ne_nil (xs : List Char) : splitDotSpace xs ≠ [] := by
  induction xs using splitDotSpace.induct with
  | case1 => simp [splitDotSpace]
  | case2 c => simp [splitDotSpace]
  | case3 c1 c2 rest h ih => simp [splitDotSpace, h]
  | case4 c1 c2 rest h ih => simp [splitDotSpace, h]

/-- Re-appending `". "` to every piece of `text.split('. ')` and
concatenating yields the text plus one trailing `". "`. -/
theorem splitDotSpace_join (xs : List Char) :
    ((splitDotSpace xs).map (· ++ ['.', ' '])).flatten = xs ++ ['.', ' '] := by
  induction xs using splitDotSpace.induct with
  | case1 => simp [splitDotSpace]
  | case2 c => simp [splitDotSpace]
  | case3 c1 c2 rest h ih =>
    obtain ⟨h1, h2⟩ := h
    subst h1 h2
    simp [splitDotSpace, ih]
  | case4 c1 c2 rest h ih =>
    obtain ⟨p, ps, hr⟩ : ∃ p ps, splitDotSpace (c2 :: rest) = p :: ps := by
      cases hy : splitDotSpace (c2 :: rest) with
      | nil => exact absurd hy (splitDotSpace_ne_nil (c2 :: rest))
      | cons p ps => exact ⟨p, ps, rfl⟩
    rw [show splitDotSpace (c1 :: c2 :: rest) =
        (c1 :: (splitDotSpace (c2 :: rest)).headI) :: (splitDotSpace (c2 :: rest)).tail by
      simp [splitDotSpace, h]]
    rw [hr] at ih ⊢
    simp only [List.headI, List.tail_cons, List.map_cons, List.flatten_cons] at ih ⊢
    simpa [List.append_assoc] using congrArg (fun t => c1 :: t) ih

/-- The sentence-packing loop loses no characters: the concatenation of
its output is the pending buffer followed by every sentence with its
re-appended `". "`. -/
theorem packGo_flatten (cs : Nat) (ss : List (List Char)) (cur : List Char) :
    (packGo cs ss cur).flatten = cur ++ (ss.map (· ++ ['.', ' '])).flatten := by
  induction ss generalizing cur with
  | nil => by_cases h : cur = [] <;> simp [packGo, h]
  | cons s ss ih =>
    by_cases h : cs < cur.length + s.length ∧ cur ≠ []
    · simp [packGo, h, ih]
    · simp [packGo, h, ih]

/-- The fixed-width character split loses no characters. -/
theorem charSplitGo_flatten (fuel : Nat) : ∀ (s : List Char) (k : Nat),
    s.length ≤ fuel → 0 < k → (charSplitGo fuel s k).flatten = s := by
  induction fuel with
  | zero =>
    intro s k hs _
    have h : s = [] := by cases s with | nil => rfl | cons a t => simp at hs
    simp [h, charSplitGo]
  | succ fuel ih =>
    intro s k hs hk
    by_cases h : s.length = 0
    · have h0 : s = [] := List.length_eq_zero.mp h
      simp [h0, charSplitGo]
    · rw [charSplitGo]
      simp only [h, if_false, List.flatten_cons]
      have hdl : (s.drop k).length ≤ fuel := by
        rw [List.length_drop]; omega
      rw [ih _ _ hdl hk, List.take_append_drop]

/-- C9 (counterexample): concatenating the chunker's output does not
reconstruct the original text content — the character '\n' of the input
is replaced by a space (line 75 flattens newlines before splitting), so
it occurs nowhere in the concatenated output, no matter which inserted
`". "` substrings are ignored. -/
theorem chunk_coverage_newline_counterexample :
    ('\n' ∈ ['a', '\n', 'b']) ∧ '\n' ∉ (split_text_into_chunks ['a', '\n', 'b'] 1).flatten := by
  decide

/-- C9 (amended): for every text and `target_size ≥ 1`, concatenating
all returned chunks reconstructs the *newline-flattened* text (each
'\n' replaced by ' ') followed by exactly one appended `". "` when
splitting occurs, and the text verbatim when `len(text) <= target_size`.
No character of the flattened text is dropped; besides the separators
`". "` that splitting removed and re-inserted, exactly one extra `". "`
is appended after the final sentence. -/
theorem chunk_coverage_flattened (text : List Char) (chunkSize : Nat) (hk : 0 < chunkSize) :
    (split_text_into_chunks text chunkSize).flatten =
      if text.length ≤ chunkSize then text
      else (text.map (fun c => if c = '\n' then ' ' else c)) ++ ['.', ' '] := by
  by_cases h : text.length ≤ chunkSize
  · simp [split_text_into_chunks, h]
  · simp only [split_text_into_chunks, h, if_false]
    have hFM : ∀ l : List (List Char),
        (l.flatMap (fun c =>
          if c.length ≤ chunkSize then [c] else charSplit c chunkSize)).flatten = l.flatten := by
      intro l
      induction l with
      | nil => rfl
      | cons a l ih =>
        simp only [List.flatMap_cons, List.flatten_append, ih]
        by_cases ha : a.length ≤ chunkSize
        · simp [ha]
        · simp only [ha, if_false, charSplit, List.flatten_cons]
          rw [charSplitGo_flatten _ _ _ le_rfl hk]
    rw [hFM, packGo_flatten, List.nil_append, splitDotSpace_join]

theorem chunk_coverage_flattened_witness :
    0 < 1 ∧ (split_text_into_chunks ['a', '\n', 'b'] 1).flatten =
      (if (['a', '\n', 'b'] : List Char).length ≤ 1 then ['a', '\n', 'b']
       else (['a', '\n', 'b'].map (fun c => if c = '\n' then ' ' else c)) ++ ['.', ' ']) :=
  ⟨by decide, chunk_coverage_flattened ['a', '\n', 'b'] 1 (by decide)⟩

/-! ### C3 — grouping retrieved chunks into deduplicated sources -/

theorem any_key_eq_mem (acc : List ((String × Nat) × SourceInfo)) (key : String × Nat) :
    (acc.any fun p => decide (p.1 = key)) = true ↔ key ∈ acc.map (·.1) := by
  simp only [List.any_eq_true, decide_eq_true_eq, List.mem_map]

/-- Unfolding of the grouping loop when the chunk's key was already
seen. -/
theorem buildSourcesGo_cons_seen (c : RetrievedChunk) (cs : List RetrievedChunk)
    (acc : List ((String × Nat) × SourceInfo)) (k : Nat)
    (hb : (acc.any fun p => decide (p.1 = chunkKey c)) = true) :
    buildSourcesGo (c :: cs) acc k = buildSourcesGo cs (accUpdate acc (chunkKey c) c.text) k := by
  rw [buildSourcesGo, hb, accUpdate]
  simp

/-- Unfolding of the grouping loop when the chunk's key is new. -/
theorem buildSourcesGo_cons_new (c : RetrievedChunk) (cs : List RetrievedChunk)
    (acc : List ((String × Nat) × SourceInfo)) (k : Nat)
    (hb : (acc.any fun p => decide (p.1 = chunkKey c)) = false) :
    buildSourcesGo (c :: cs) acc k = buildSourcesGo cs
      (acc ++ [(chunkKey c,
        { source_num := k, chunks := [c.text],
          pdf_filename := c.metadata.pdf_filename, page := c.metadata.page })]) (k + 1) := by
  rw [buildSourcesGo, hb]
  simp

/-- Updating the payload of entries with a given key leaves the key list
unchanged. -/
theorem map_fst_update (acc : List ((String × Nat) × SourceInfo)) (key : String × Nat)
    (t : List Char) :
    (accUpdate acc key t).map (·.1) = acc.map (·.1) := by
  induction acc with
  | nil => rfl
  | cons p acc ih =>
    by_cases h : p.1 = key <;> simp [accUpdate, h] <;> simpa [accUpdate] using ih

/-- The key list of the grouping loop is the first-seen deduplication of
the processed chunk keys, continued from the accumulator's keys. -/
theorem buildSourcesGo_keys (cs : List RetrievedChunk) :
    ∀ (acc : List ((String × Nat) × SourceInfo)) (k : Nat),
    (buildSourcesGo cs acc k).map (·.1) =
      cs.foldl (fun a c => if chunkKey c ∈ a then a else a ++ [chunkKey c]) (acc.map (·.1)) := by
  induction cs with
  | nil => intro acc k; rfl
  | cons c cs ih =>
    intro acc k
    cases hb : (acc.any fun p => decide (p.1 = chunkKey c)) with
    | true =>
      have hmem : chunkKey c ∈ acc.map (·.1) := (any_key_eq_mem acc (chunkKey c)).mp hb
      rw [buildSourcesGo_cons_seen c cs acc k hb, ih, map_fst_update]
      simp only [List.foldl_cons, hmem, if_true]
    | false =>
      have hmem : chunkKey c ∉ acc.map (·.1) := fun hm => by
        rw [(any_key_eq_mem acc (chunkKey c)).mpr hm] at hb
        exact Bool.true_eq_false.mp hb
      rw [buildSourcesGo_cons_new c cs acc k hb, ih]
      simp only [List.foldl_cons, hmem, if_false, List.map_append]
      rfl

/-- The key list of `buildSources` is the first-seen deduplication of
the chunk keys.  (One entry per unique `(pdf_filename, page)` pair, in
first-encounter order.) -/
theorem buildSources_keys (chunks : List RetrievedChunk) :
    (buildSources chunks).map (·.1) = firstSeenDedup (chunks.map chunkKey) := by
  rw [buildSources, buildSourcesGo_keys, firstSeenDedup, List.foldl_map]
  rfl

theorem firstSeenDedup_aux_nodup (l : List (String × Nat)) :
    ∀ acc : List (String × Nat), acc.Nodup →
      (l.foldl (fun a k => if k ∈ a then a else a ++ [k]) acc).Nodup := by
  induction l with
  | nil => intro acc h; exact h
  | cons k l ih =>
    intro acc h
    by_cases hk : k ∈ acc
    · simpa [hk] using ih acc h
    · simp only [List.foldl_cons, hk, if_false]
      exact ih (acc ++ [k]) (by simp [List.nodup_append, h, hk])

theorem firstSeenDedup_nodup (l : List (String × Nat)) : (firstSeenDedup l).Nodup :=
  firstSeenDedup_aux_nodup l [] List.nodup_nil

/-- Updating chunk payloads preserves source numbers, so the
source-number list of the accumulator is unchanged. -/
theorem map_num_update (acc : List ((String × Nat) × SourceInfo)) (key : String × Nat)
    (t : List Char) :
    (accUpdate acc key t).map (·.2.source_num) = acc.map (·.2.source_num) := by
  induction acc with
  | nil => rfl
  | cons p acc ih =>
    by_cases h : p.1 = key <;> simp [accUpdate, h] <;> simpa [accUpdate] using ih

theorem accUpdate_length (acc : List ((String × Nat) × SourceInfo)) (key : String × Nat)
    (t : List Char) : (accUpdate acc key t).length = acc.length := by
  simp [accUpdate]

/-- Source numbers are assigned densely in first-seen order: if the
accumulator carries numbers `1..len` and the counter continues at
`len+1`, the final table carries numbers `1..total`. -/
theorem buildSourcesGo_nums (cs : List RetrievedChunk) :
    ∀ acc : List ((String × Nat) × SourceInfo),
    acc.map (·.2.source_num) = List.range' 1 acc.length →
    (buildSourcesGo cs acc (acc.length + 1)).map (·.2.source_num) =
      List.range' 1 (buildSourcesGo cs acc (acc.length + 1)).length := by
  induction cs with
  | nil => intro acc h; exact h
  | cons c cs ih =>
    intro acc h
    cases hb : (acc.any fun p => decide (p.1 = chunkKey c)) with
    | true =>
      rw [buildSourcesGo_cons_seen c cs acc (acc.length + 1) hb]
      have h' : (accUpdate acc (chunkKey c) c.text).map (·.2.source_num) =
          List.range' 1 (accUpdate acc (chunkKey c) c.text).length := by
        rw [map_num_update, accUpdate_length]
        exact h
      have := ih (accUpdate acc (chunkKey c) c.text) h'
      rwa [accUpdate_length] at this
    | false =>
      rw [buildSourcesGo_cons_new c cs acc (acc.length + 1) hb]
      set entry : (String × Nat) × SourceInfo := (chunkKey c,
        { source_num := acc.length + 1, chunks := [c.text],
          pdf_filename := c.metadata.pdf_filename, page := c.metadata.page }) with hentry
      have hlen : (acc ++ [entry]).length = acc.length + 1 := by simp
      have hnum : (acc ++ [entry]).map (·.2.source_num) = List.range' 1 (acc ++ [entry]).length := by
        rw [List.map_append, h, hlen, List.range'_concat]
        simp [hentry, Nat.add_comm]
      have := ih (acc ++ [entry]) hnum
      rwa [hlen] at this

/-- Master invariant of the grouping loop: every table entry's chunk
texts are exactly the texts of the processed chunks with its key, in
encounter order, and its citation fields agree with its key. -/
theorem buildSourcesGo_groups (cs : List RetrievedChunk) :
    ∀ (acc : List ((String × Nat) × SourceInfo)) (k : Nat) (processed : List RetrievedChunk),
    (∀ key ∈ processed.map chunkKey, key ∈ acc.map (·.1)) →
    (∀ p ∈ acc, p.2.chunks = (processed.filter (fun c => decide (chunkKey c = p.1))).map (·.text)
       ∧ p.2.pdf_filename = p.1.1 ∧ p.2.page = p.1.2) →
    ∀ p ∈ buildSourcesGo cs acc k,
      p.2.chunks = ((processed ++ cs).filter (fun c => decide (chunkKey c = p.1))).map (·.text)
      ∧ p.2.pdf_filename = p.1.1 ∧ p.2.page = p.1.2 := by
  induction cs with
  | nil =>
    intro acc k processed _ hgroup p hp
    simpa using hgroup p hp
  | cons c cs ih =>
    intro acc k processed hkeys hgroup
    have hsplit : processed ++ c :: cs = (processed ++ [c]) ++ cs := by simp
    cases hb : (acc.any fun p => decide (p.1 = chunkKey c)) with
    | true =>
      rw [buildSourcesGo_cons_seen c cs acc k hb]
      intro p hp
      rw [hsplit]
      refine ih (accUpdate acc (chunkKey c) c.text) k (processed ++ [c]) ?_ ?_ p hp
      · intro key hkey
        rw [map_fst_update]
        simp only [List.map_append, List.mem_append, List.map_cons, List.map_nil,
          List.mem_singleton] at hkey
        rcases hkey with hkey | hkey
        · exact hkeys key hkey
        · subst hkey; exact (any_key_eq_mem acc (chunkKey c)).mp hb
      · intro q hq
        rcases List.mem_map.mp hq with ⟨q0, hq0, hq0e⟩
        obtain ⟨hch, hpdf, hpg⟩ := hgroup q0 hq0
        by_cases he : q0.1 = chunkKey c
        · rw [← hq0e, if_pos he]
          refine ⟨?_, hpdf, hpg⟩
          rw [List.filter_append, List.map_append, ← hch]
          simp [he.symm]
        · rw [← hq0e, if_neg he]
          refine ⟨?_, hpdf, hpg⟩
          rw [List.filter_append, List.map_append, ← hch]
          have hne : chunkKey c ≠ q0.1 := fun hcc => he hcc.symm
          simp [hne]
    | false =>
      rw [buildSourcesGo_cons_new c cs acc k hb]
      intro p hp
      rw [hsplit]
      have hnotmem : chunkKey c ∉ acc.map (·.1) := fun hm => by
        rw [(any_key_eq_mem acc (chunkKey c)).mpr hm] at hb
        exact Bool.true_eq_false.mp hb
      refine ih (acc ++ [(chunkKey c,
          { source_num := k, chunks := [c.text],
            pdf_filename := c.metadata.pdf_filename, page := c.metadata.page })])
        (k + 1) (processed ++ [c]) ?_ ?_ p hp
      · intro key hkey
        simp only [List.map_append, List.mem_append, List.map_cons, List.map_nil,
          List.mem_singleton] at hkey ⊢
        rcases hkey with hkey | hkey
        · exact Or.inl (hkeys key hkey)
        · subst hkey; exact Or.inr (by simp)
      · intro q hq
        rcases List.mem_append.mp hq with hq | hq
        · obtain ⟨hch, hpdf, hpg⟩ := hgroup q hq
          refine ⟨?_, hpdf, hpg⟩
          rw [List.filter_append, List.map_append, ← hch]
          have hne : chunkKey c ≠ q.1 := by
            intro hcc
            exact hnotmem (hcc ▸ List.mem_map.mpr ⟨q, hq, rfl⟩)
          simp [hne]
        · simp only [List.mem_singleton] at hq
          subst hq
          refine ⟨?_, rfl, rfl⟩
          have hproc : processed.filter (fun x => decide (chunkKey x = chunkKey c)) = [] := by
            rw [List.filter_eq_nil_iff]
            intro x hx
            simp only [decide_eq_true_eq]
            intro hcc
            exact hnotmem (hcc ▸ hkeys (chunkKey x) (List.mem_map.mpr ⟨x, hx, rfl⟩))
          show ([c.text] : List (List Char)) =
            ((processed ++ [c]).filter (fun x => decide (chunkKey x = chunkKey c))).map (·.text)
          rw [List.filter_append, hproc, List.nil_append]
          simp

/-- C3: `generate_answer`'s context assembly (lines 142-184, embedded
as `buildSources`, `mkCitations`, `contextParts`) walks the chunks in
their given order and groups them by `(pdf_filename, page)`: the table
has exactly one entry per unique key, in first-seen order with source
numbers `1..m`; each source's chunk-text list collects all chunk texts
with its key in encounter order; its context line space-joins them; and
exactly one citation per unique key is produced.  In particular two
chunks with equal keys and different texts yield a single source whose
combined text lists both texts in encounter order, and one citation. -/
theorem generate_answer_groups_by_source (chunks : List RetrievedChunk) (hne : chunks ≠ []) :
    ((buildSources chunks).map (·.1) = firstSeenDedup (chunks.map chunkKey))
    ∧ ((buildSources chunks).map (·.1)).Nodup
    ∧ ((buildSources chunks).map (·.2.source_num) =
        List.range' 1 (buildSources chunks).length)
    ∧ (∀ p ∈ buildSources chunks,
        p.2.chunks = (chunks.filter (fun c => decide (chunkKey c = p.1))).map (·.text)
        ∧ p.2.pdf_filename = p.1.1 ∧ p.2.page = p.1.2)
    ∧ (mkCitations (buildSources chunks)).length = (firstSeenDedup (chunks.map chunkKey)).length
    ∧ contextParts (buildSources chunks) = (buildSources chunks).map (fun p =>
        "[Source ".toList ++ natDigits p.2.source_num ++ " - Page ".toList ++
          natDigits p.2.page ++ "]: ".toList ++
          List.intercalate [' ']
            ((chunks.filter (fun c => decide (chunkKey c = p.1))).map (·.text))) := by
  have hkeys := buildSources_keys chunks
  have hgroups := buildSourcesGo_groups chunks [] 1 [] (by simp) (by simp)
  refine ⟨hkeys, hkeys ▸ firstSeenDedup_nodup _, ?_, ?_, ?_, ?_⟩
  · exact buildSourcesGo_nums chunks [] (by simp)
  · intro p hp
    simpa using hgroups p hp
  · rw [← hkeys]
    simp [mkCitations]
  · rw [contextParts]
    refine List.map_congr_left ?_
    intro p hp
    obtain ⟨hch, _, _⟩ := hgroups p hp
    rw [show (chunks : List RetrievedChunk) = [] ++ chunks from rfl] at hch
    rw [hch]
    simp

/-! ### C1 and C5 — the marker scanner: `\[Source\s+(\d+)\]` with
IGNORECASE -/

/-- `matchCaseless` consumes exactly one case-variant of its pattern. -/
theorem matchCaseless_sound (pat : List Char) :
    ∀ (s r : List Char), matchCaseless pat s = some r →
      ∃ src, s = src ++ r ∧ src.map Char.toLower = pat := by
  induction pat with
  | nil =>
    intro s r h
    simp only [matchCaseless, Option.some.injEq] at h
    exact ⟨[], by simp [h], rfl⟩
  | cons p ps ih =>
    intro s r h
    cases s with
    | nil => simp [matchCaseless] at h
    | cons c cs =>
      rw [matchCaseless] at h
      by_cases hc : c.toLower = p
      · rw [if_pos hc] at h
        obtain ⟨src, hs, hm⟩ := ih cs r h
        exact ⟨c :: src, by simp [hs], by simp [hm, hc]⟩
      · rw [if_neg hc] at h
        exact absurd h (by simp)

theorem matchCaseless_complete (pat : List Char) :
    ∀ (src t : List Char), src.map Char.toLower = pat →
      matchCaseless pat (src ++ t) = some t := by
  induction pat with
  | nil =>
    intro src t h
    have hsrc : src = [] := by cases src <;> simp_all
    simp [hsrc, matchCaseless]
  | cons p ps ih =>
    intro src t h
    cases src with
    | nil => simp at h
    | cons c cs =>
      simp only [List.map_cons, List.cons.injEq] at h
      obtain ⟨h1, h2⟩ := h
      simp [matchCaseless, h1, ih cs t h2]

theorem space_not_digit (c : Char) (h : isSpaceChar c = true) : c.isDigit = false := by
  simp only [isSpaceChar, Bool.or_eq_true, beq_iff_eq] at h
  rcases h with ((((h | h) | h) | h) | h) | h <;> subst h <;> decide

theorem digit_not_space (c : Char) (h : c.isDigit = true) : isSpaceChar c = false := by
  cases hs : isSpaceChar c
  · rfl
  · rw [space_not_digit c hs] at h
    exact absurd h (by simp)

theorem space_not_lbracket (c : Char) (h : isSpaceChar c = true) : c ≠ '[' := by
  simp only [isSpaceChar, Bool.or_eq_true, beq_iff_eq] at h
  rcases h with ((((h | h) | h) | h) | h) | h <;> subst h <;> decide

theorem digit_not_lbracket (c : Char) (h : c.isDigit = true) : c ≠ '[' := by
  intro he
  subst he
  exact absurd h (by decide)

theorem sourceWord_char_not_lbracket (c : Char) (h : c.toLower ∈ sourceWord) : c ≠ '[' := by
  intro he
  subst he
  revert h
  decide

/-- `takeWhile`/`dropWhile` through a clean boundary: all of `a`
satisfies `p`, the next character does not. -/
theorem takeWhile_boundary (p : Char → Bool) (a : List Char) (d : Char) (l : List Char)
    (ha : ∀ c ∈ a, p c = true) (hd : p d = false) :
    (a ++ d :: l).takeWhile p = a ∧ (a ++ d :: l).dropWhile p = d :: l := by
  induction a with
  | nil => simp [List.takeWhile_cons, List.dropWhile_cons, hd]
  | cons x a ih =>
    have hx : p x = true := ha x (by simp)
    have hrec := ih (fun c hc => ha c (by simp [hc]))
    constructor
    · simp only [List.cons_append, List.takeWhile_cons, hx, if_true, hrec.1]
    · simp only [List.cons_append, List.dropWhile_cons, hx, if_true, hrec.2]

/-- Completeness of the marker matcher: any well-formed marker text at
the head of the input matches, consuming exactly the marker. -/
theorem matchMarker_complete (src sp ds t : List Char)
    (hsrc : src.map Char.toLower = sourceWord)
    (hsp : sp ≠ []) (hspc : ∀ c ∈ sp, isSpaceChar c = true)
    (hds : ds ≠ []) (hdsc : ∀ c ∈ ds, Char.isDigit c = true) :
    matchMarker ('[' :: (src ++ (sp ++ (ds ++ ']' :: t)))) =
      some ⟨'[' :: (src ++ (sp ++ (ds ++ [']']))), ds, t⟩ := by
  obtain ⟨d0, ds', rfl⟩ : ∃ d0 ds', ds = d0 :: ds' := by
    cases ds with
    | nil => exact absurd rfl hds
    | cons d0 ds' => exact ⟨d0, ds', rfl⟩
  have hlen6 : src.length = 6 := by
    have := congrArg List.length hsrc
    simpa [sourceWord] using this
  have htw1 := takeWhile_boundary isSpaceChar sp d0 (ds' ++ ']' :: t) hspc
    (digit_not_space d0 (hdsc d0 (by simp)))
  have htw2 := takeWhile_boundary Char.isDigit (d0 :: ds') ']' t
    (fun c hc => hdsc c hc) (by decide)
  rw [matchMarker]
  rw [matchCaseless_complete sourceWord src _ hsrc]
  dsimp only
  rw [show (sp ++ (d0 :: ds' ++ ']' :: t)) = sp ++ d0 :: (ds' ++ ']' :: t) from by simp]
  rw [htw1.1, htw1.2]
  rw [show (d0 :: (ds' ++ ']' :: t)) = (d0 :: ds') ++ ']' :: t from by simp]
  rw [htw2.1, htw2.2]
  simp only [List.isEmpty_iff, hsp, if_false, List.cons_ne_nil]
  have htake : ((src ++ (sp ++ d0 :: (ds' ++ ']' :: t))).take 6) = src := by
    rw [← hlen6]
    exact List.take_left src _
  simp [htake]
/-- Soundness of the marker matcher: a successful match decomposes the
input into the matched marker and the remainder. -/
theorem matchMarker_sound (s : List Char) (m : MarkerMatch) (h : matchMarker s = some m) :
    ∃ src sp t, s = '[' :: (src ++ (sp ++ (m.digits ++ ']' :: t)))
      ∧ m.matched = '[' :: (src ++ (sp ++ (m.digits ++ [']'])))
      ∧ m.rest = t
      ∧ src.map Char.toLower = sourceWord
      ∧ sp ≠ [] ∧ (∀ c ∈ sp, isSpaceChar c = true)
      ∧ m.digits ≠ [] ∧ (∀ c ∈ m.digits, Char.isDigit c = true) := by
  rw [matchMarker.eq_def] at h
  split at h
  case _ rest =>
    cases hmc : matchCaseless sourceWord rest with
    | none => rw [hmc] at h; exact absurd h (by simp)
    | some r1 =>
      rw [hmc] at h
      dsimp only at h
      by_cases hspE : (r1.takeWhile isSpaceChar).isEmpty = true
      · rw [if_pos hspE] at h; exact absurd h (by simp)
      · rw [if_neg hspE] at h
        by_cases hdsE : ((r1.dropWhile isSpaceChar).takeWhile Char.isDigit).isEmpty = true
        · rw [if_pos hdsE] at h; exact absurd h (by simp)
        · rw [if_neg hdsE] at h
          split at h
          case _ r4 hr3 =>
            obtain ⟨src, hrest, hmap⟩ := matchCaseless_sound sourceWord rest r1 hmc
            have hlen6 : src.length = 6 := by
              have := congrArg List.length hmap
              simpa [sourceWord] using this
            have htake : rest.take 6 = src := by
              rw [hrest, ← hlen6]
              exact List.take_left src r1
            have hr1 : r1 = r1.takeWhile isSpaceChar ++ r1.dropWhile isSpaceChar :=
              (List.takeWhile_append_dropWhile isSpaceChar r1).symm
            have hr2 : r1.dropWhile isSpaceChar =
                (r1.dropWhile isSpaceChar).takeWhile Char.isDigit ++
                  (r1.dropWhile isSpaceChar).dropWhile Char.isDigit :=
              (List.takeWhile_append_dropWhile Char.isDigit (r1.dropWhile isSpaceChar)).symm
            have hkey : rest =
                src ++ (r1.takeWhile isSpaceChar ++
                  ((r1.dropWhile isSpaceChar).takeWhile Char.isDigit ++ ']' :: r4)) := by
              rw [hrest]
              congr 1
              conv_lhs => rw [hr1]
              congr 1
              conv_lhs => rw [hr2]
              rw [hr3]
            rw [htake] at h
            cases h
            refine ⟨src, r1.takeWhile isSpaceChar, r4, ?_, ?_, rfl, hmap,
              ?_, fun c hc => List.mem_takeWhile_imp hc,
              ?_, fun c hc => List.mem_takeWhile_imp hc⟩
            · dsimp only
              rw [hkey]
            · dsimp only
              simp [List.append_assoc]
            · dsimp only
              intro he
              rw [he] at hspE
              exact hspE rfl
            · dsimp only
              intro he
              rw [he] at hdsE
              exact hdsE rfl
          case _ => exact absurd h (by simp)
  case _ => exact absurd h (by simp)

/-- A successful match consumes at least one character. -/
theorem matchMarker_rest_length (s : List Char) (m : MarkerMatch)
    (h : matchMarker s = some m) : m.rest.length < s.length := by
  obtain ⟨src, sp, t, hs, _, hrest, _, _, _, _, _⟩ := matchMarker_sound s m h
  rw [hs, hrest]
  simp
  omega

/-- The matched text contains `'['` only as its first character. -/
theorem matchMarker_matched_no_lbracket (s : List Char) (m : MarkerMatch)
    (h : matchMarker s = some m) :
    ∃ body, m.matched = '[' :: body ∧ '[' ∉ body := by
  obtain ⟨src, sp, t, hs, hmat, hrest, hmap, hspne, hspc, hdsne, hdsc⟩ :=
    matchMarker_sound s m h
  refine ⟨_, hmat, ?_⟩
  intro hmem
  simp only [List.mem_append, List.mem_cons, List.not_mem_nil, or_false] at hmem
  rcases hmem with h1 | h2 | h3 | h4
  · exact sourceWord_char_not_lbracket '[' (hmap ▸ List.mem_map_of_mem Char.toLower h1) rfl
  · exact space_not_lbracket '[' (hspc '[' h2) rfl
  · exact digit_not_lbracket '[' (hdsc '[' h3) rfl
  · exact absurd h4.symm (by decide)

/-- A matched marker re-matches against any continuation, consuming
exactly itself. -/
theorem matchMarker_stable (s : List Char) (m : MarkerMatch) (h : matchMarker s = some m)
    (x : List Char) :
    matchMarker (m.matched ++ x) = some ⟨m.matched, m.digits, x⟩ := by
  obtain ⟨src, sp, t, hs, hmat, hrest, hmap, hspne, hspc, hdsne, hdsc⟩ :=
    matchMarker_sound s m h
  rw [hmat]
  have hshape : ('[' :: (src ++ (sp ++ (m.digits ++ [']'])))) ++ x
      = '[' :: (src ++ (sp ++ (m.digits ++ ']' :: x))) := by simp
  rw [hshape, matchMarker_complete src sp m.digits x hmap hspne hspc hdsne hdsc, ← hmat]

/-- Fuel irrelevance of the marker scan: any fuel at least the input
length gives the same result, because every step consumes at least one
character. -/
theorem findMarkersGo_stable : ∀ (fuel fuel' : Nat) (s : List Char),
    s.length ≤ fuel → s.length ≤ fuel' → findMarkersGo fuel s = findMarkersGo fuel' s := by
  intro fuel
  induction fuel with
  | zero =>
    intro fuel' s hs _
    have hnil : s = [] := by cases s <;> simp_all
    subst hnil
    cases fuel' <;> rfl
  | succ fuel ih =>
    intro fuel' s hs hs'
    cases s with
    | nil => cases fuel' <;> rfl
    | cons c rest =>
      cases fuel' with
      | zero => simp at hs'
      | succ fuel' =>
        simp only [List.length_cons] at hs hs'
        rw [findMarkersGo, findMarkersGo]
        cases hm : matchMarker (c :: rest) with
        | none =>
          exact ih fuel' rest (by omega) (by omega)
        | some m =>
          have hlt := matchMarker_rest_length _ _ hm
          simp only [List.length_cons] at hlt
          dsimp only
          rw [ih fuel' m.rest (by omega) (by omega)]

theorem findMarkers_cons_some (c : Char) (rest : List Char) (m : MarkerMatch)
    (hm : matchMarker (c :: rest) = some m) :
    findMarkers (c :: rest) = m.digits :: findMarkers m.rest := by
  have hlt := matchMarker_rest_length _ _ hm
  simp only [List.length_cons] at hlt
  rw [findMarkers, findMarkers, show (c :: rest).length = rest.length + 1 from rfl,
    findMarkersGo, hm]
  dsimp only
  congr 1
  exact findMarkersGo_stable rest.length m.rest.length m.rest (by omega) le_rfl

theorem findMarkers_cons_none (c : Char) (rest : List Char)
    (hm : matchMarker (c :: rest) = none) :
    findMarkers (c :: rest) = findMarkers rest := by
  rw [findMarkers, findMarkers, show (c :: rest).length = rest.length + 1 from rfl,
    findMarkersGo, hm]

theorem substMarkersGo_stable (remap : Nat → Option Nat) :
    ∀ (fuel fuel' : Nat) (s : List Char),
    s.length ≤ fuel → s.length ≤ fuel' →
      substMarkersGo remap fuel s = substMarkersGo remap fuel' s := by
  intro fuel
  induction fuel with
  | zero =>
    intro fuel' s hs _
    have hnil : s = [] := by cases s <;> simp_all
    subst hnil
    cases fuel' <;> rfl
  | succ fuel ih =>
    intro fuel' s hs hs'
    cases s with
    | nil => cases fuel' <;> rfl
    | cons c rest =>
      cases fuel' with
      | zero => simp at hs'
      | succ fuel' =>
        simp only [List.length_cons] at hs hs'
        rw [substMarkersGo, substMarkersGo]
        cases hm : matchMarker (c :: rest) with
        | none =>
          dsimp only
          rw [ih fuel' rest (by omega) (by omega)]
        | some m =>
          have hlt := matchMarker_rest_length _ _ hm
          simp only [List.length_cons] at hlt
          dsimp only
          rw [ih fuel' m.rest (by omega) (by omega)]

theorem substMarkers_cons_some (remap : Nat → Option Nat) (c : Char) (rest : List Char)
    (m : MarkerMatch) (hm : matchMarker (c :: rest) = some m) :
    substMarkers remap (c :: rest) =
      (match remap (digitsToNat m.digits) with
       | some newNum => markerText newNum
       | none => m.matched) ++ substMarkers remap m.rest := by
  have hlt := matchMarker_rest_length _ _ hm
  simp only [List.length_cons] at hlt
  rw [substMarkers, substMarkers, show (c :: rest).length = rest.length + 1 from rfl,
    substMarkersGo, hm]
  dsimp only
  congr 1
  exact substMarkersGo_stable remap rest.length m.rest.length m.rest (by omega) le_rfl

theorem substMarkers_cons_none (remap : Nat → Option Nat) (c : Char) (rest : List Char)
    (hm : matchMarker (c :: rest) = none) :
    substMarkers remap (c :: rest) = c :: substMarkers remap rest := by
  rw [substMarkers, substMarkers, show (c :: rest).length = rest.length + 1 from rfl,
    substMarkersGo, hm]

/-! Decimal rendering: `natDigits` produces a non-empty digit string
whose value is the rendered number. -/

theorem digitChar10_isDigit (d : Nat) (h : d < 10) : (digitChar10 d).isDigit = true := by
  interval_cases d <;> decide

theorem digitChar10_val (d : Nat) (h : d < 10) : (digitChar10 d).toNat - 48 = d := by
  interval_cases d <;> decide

theorem natDigitsGo_ne_nil (fuel n : Nat) : natDigitsGo fuel n ≠ [] := by
  cases fuel with
  | zero => simp [natDigitsGo]
  | succ fuel =>
    rw [natDigitsGo]
    by_cases h : n < 10 <;> simp [h]

theorem natDigitsGo_digits (fuel : Nat) :
    ∀ n, n ≤ fuel → ∀ c ∈ natDigitsGo fuel n, c.isDigit = true := by
  induction fuel with
  | zero =>
    intro n _ c hc
    simp only [natDigitsGo, List.mem_singleton] at hc
    subst hc
    exact digitChar10_isDigit _ (Nat.mod_lt _ (by omega))
  | succ fuel ih =>
    intro n hn c hc
    rw [natDigitsGo] at hc
    by_cases h : n < 10
    · simp only [h, if_true, List.mem_singleton] at hc
      subst hc
      exact digitChar10_isDigit n h
    · simp only [h, if_false, List.mem_append, List.mem_singleton] at hc
      have hdiv : n / 10 < n := Nat.div_lt_self (by omega) (by omega)
      rcases hc with hc | hc
      · exact ih (n / 10) (by omega) c hc
      · subst hc
        exact digitChar10_isDigit _ (Nat.mod_lt _ (by omega))

theorem digitsToNat_append_digit (ds : List Char) (c : Char) :
    digitsToNat (ds ++ [c]) = 10 * digitsToNat ds + (c.toNat - 48) := by
  simp [digitsToNat, List.foldl_append]

theorem natDigitsGo_roundtrip (fuel : Nat) :
    ∀ n, n ≤ fuel → digitsToNat (natDigitsGo fuel n) = n := by
  induction fuel with
  | zero =>
    intro n hn
    have h0 : n = 0 := by omega
    subst h0
    decide
  | succ fuel ih =>
    intro n hn
    rw [natDigitsGo]
    by_cases h : n < 10
    · simp only [h, if_true]
      show digitsToNat [digitChar10 n] = n
      have := digitChar10_val n h
      simp [digitsToNat]
      omega
    · simp only [h, if_false]
      rw [digitsToNat_append_digit]
      have hdiv : n / 10 < n := Nat.div_lt_self (by omega) (by omega)
      rw [ih (n / 10) (by omega), digitChar10_val _ (Nat.mod_lt _ (by omega))]
      omega

theorem natDigits_ne_nil (n : Nat) : natDigits n ≠ [] := natDigitsGo_ne_nil n n

theorem natDigits_digits (n : Nat) : ∀ c ∈ natDigits n, c.isDigit = true :=
  natDigitsGo_digits n n le_rfl

theorem digitsToNat_natDigits (n : Nat) : digitsToNat (natDigits n) = n :=
  natDigitsGo_roundtrip n n le_rfl

/-- The replacement text `[Source {n}]` is itself a marker matching to
exactly the digits of `n`. -/
theorem matchMarker_markerText (n : Nat) (x : List Char) :
    matchMarker (markerText n ++ x) = some ⟨markerText n, natDigits n, x⟩ := by
  have h1 : markerText n ++ x =
      '[' :: ("Source".toList ++ ([' '] ++ (natDigits n ++ ']' :: x))) := by
    simp [markerText, show ("Source ".toList : List Char) = "Source".toList ++ [' '] from rfl]
  have h2 : markerText n =
      '[' :: ("Source".toList ++ ([' '] ++ (natDigits n ++ [']']))) := by
    simp [markerText, show ("Source ".toList : List Char) = "Source".toList ++ [' '] from rfl]
  rw [h1, matchMarker_complete "Source".toList [' '] (natDigits n) x (by decide) (by decide)
    (by decide) (natDigits_ne_nil n) (natDigits_digits n), ← h2]

/-- Matching from a position strictly before a `'['` is insensitive to
what follows that `'['`: the marker pattern contains `'['` only at its
start, so a match beginning earlier must end before it. -/
theorem matchMarker_agree (u z1 z2 : List Char) (hu : u ≠ [])
    (h1 : matchMarker (u ++ '[' :: z1) = none) :
    matchMarker (u ++ '[' :: z2) = none := by
  cases h2 : matchMarker (u ++ '[' :: z2) with
  | none => rfl
  | some m =>
    exfalso
    obtain ⟨src, sp, t, hs, hmat, hrest, hmap, hspne, hspc, hdsne, hdsc⟩ :=
      matchMarker_sound _ m h2
    obtain ⟨u0, u', rfl⟩ : ∃ u0 u', u = u0 :: u' := by
      cases u with
      | nil => exact absurd rfl hu
      | cons u0 u' => exact ⟨u0, u', rfl⟩
    rw [List.cons_append] at hs
    injection hs with hu0 htail
    subst hu0
    have hnoLB : '[' ∉ (src ++ sp ++ m.digits) := by
      intro hmem
      simp only [List.mem_append] at hmem
      rcases hmem with (hc | hc) | hc
      · exact sourceWord_char_not_lbracket '[' (hmap ▸ List.mem_map_of_mem Char.toLower hc) rfl
      · exact space_not_lbracket '[' (hspc '[' hc) rfl
      · exact digit_not_lbracket '[' (hdsc '[' hc) rfl
    have hre : src ++ (sp ++ (m.digits ++ ']' :: t)) = (src ++ sp ++ m.digits) ++ ']' :: t := by
      simp
    rw [hre] at htail
    rcases List.append_eq_append_iff.mp htail with ⟨a, ha1, ha2⟩ | ⟨a, ha1, ha2⟩
    · -- the pattern body extends at least to the '[' boundary
      cases a with
      | nil =>
        simp only [List.append_nil] at ha1 ha2
        exact absurd (List.head_eq_of_cons_eq ha2) (by decide)
      | cons a0 a' =>
        have ha0 : a0 = '[' := List.head_eq_of_cons_eq ha2.symm
        subst ha0
        exact hnoLB (ha1 ▸ List.mem_append_right u' (by simp))
    · -- the pattern body ends inside u: the same match exists over z1
      cases a with
      | nil =>
        simp only [List.append_nil] at ha1 ha2
        exact absurd (List.head_eq_of_cons_eq ha2.symm) (by decide)
      | cons a0 a' =>
        have ha0 : a0 = ']' := (List.head_eq_of_cons_eq ha2).symm
        subst ha0
        have hu' : u' = (src ++ sp ++ m.digits) ++ ']' :: a' := ha1
        have hfull : ('[' : Char) :: (u' ++ '[' :: z1) =
            '[' :: (src ++ (sp ++ (m.digits ++ ']' :: (a' ++ '[' :: z1)))) := by
          rw [hu']
          simp
        rw [List.cons_append] at h1
        rw [hfull, matchMarker_complete src sp m.digits (a' ++ '[' :: z1)
          hmap hspne hspc hdsne hdsc] at h1
        exact absurd h1 (by simp)

/-- The rewritten text is either unchanged, or agrees with the input up
to the first `'['` at which a marker was found. -/
theorem substMarkers_shape (remap : Nat → Option Nat) : ∀ (fuel : Nat) (s : List Char),
    s.length ≤ fuel →
    substMarkers remap s = s ∨
      ∃ w z1 z2, s = w ++ '[' :: z1 ∧ substMarkers remap s = w ++ '[' :: z2 := by
  intro fuel
  induction fuel with
  | zero =>
    intro s hs
    left
    have hnil : s = [] := by cases s <;> simp_all
    subst hnil
    rfl
  | succ fuel ih =>
    intro s hs
    cases s with
    | nil => left; rfl
    | cons c rest =>
      simp only [List.length_cons] at hs
      cases hm : matchMarker (c :: rest) with
      | some m =>
        right
        obtain ⟨src, sp, t, hsdec, hmat, hrest, _, _, _, _, _⟩ := matchMarker_sound _ m hm
        have hc : c = '[' := List.head_eq_of_cons_eq hsdec
        have htl : rest = src ++ (sp ++ (m.digits ++ ']' :: t)) := List.tail_eq_of_cons_eq hsdec
        subst hc
        rw [substMarkers_cons_some remap _ _ m hm]
        cases hr : remap (digitsToNat m.digits) with
        | some nn =>
          refine ⟨[], rest,
            ("Source ".toList ++ natDigits nn ++ [']']) ++ substMarkers remap m.rest,
            rfl, ?_⟩
          simp [markerText]
        | none =>
          obtain ⟨body, hmatb, _⟩ := matchMarker_matched_no_lbracket _ m hm
          refine ⟨[], rest, body ++ substMarkers remap m.rest, rfl, ?_⟩
          dsimp only
          rw [hmatb]
          simp
      | none =>
        rw [substMarkers_cons_none remap c rest hm]
        rcases ih rest (by omega) with h | ⟨w, z1, z2, hw1, hw2⟩
        · left
          rw [h]
        · right
          exact ⟨c :: w, z1, z2, by simp [hw1], by simp [hw2]⟩

/-- Rewriting the tail of the input cannot create a match at a position
where none existed. -/
theorem matchMarker_subst_none (remap : Nat → Option Nat) (c : Char) (rest : List Char)
    (h : matchMarker (c :: rest) = none) :
    matchMarker (c :: substMarkers remap rest) = none := by
  rcases substMarkers_shape remap rest.length rest le_rfl with hs | ⟨w, z1, z2, hw1, hw2⟩
  · rw [hs]
    exact h
  · rw [hw2]
    have h1 : matchMarker ((c :: w) ++ '[' :: z1) = none := by
      rw [List.cons_append, ← hw1]
      exact h
    have h2 := matchMarker_agree (c :: w) z1 z2 (by simp) h1
    rw [List.cons_append] at h2
    exact h2

/-- Re-scanning the rewritten answer: the marker occurrences of the
output are exactly those of the input, with every remapped number
replaced and every other number left unchanged. -/
theorem substMarkers_rescan (remap : Nat → Option Nat) : ∀ (fuel : Nat) (s : List Char),
    s.length ≤ fuel →
    (findMarkers (substMarkers remap s)).map digitsToNat =
      ((findMarkers s).map digitsToNat).map (fun n => (remap n).getD n) := by
  intro fuel
  induction fuel with
  | zero =>
    intro s hs
    have hnil : s = [] := by cases s <;> simp_all
    subst hnil
    rfl
  | succ fuel ih =>
    intro s hs
    cases s with
    | nil => rfl
    | cons c rest =>
      simp only [List.length_cons] at hs
      cases hm : matchMarker (c :: rest) with
      | some m =>
        have hlt := matchMarker_rest_length _ _ hm
        simp only [List.length_cons] at hlt
        rw [substMarkers_cons_some remap c rest m hm, findMarkers_cons_some c rest m hm]
        cases hr : remap (digitsToNat m.digits) with
        | some nn =>
          dsimp only
          have hcons : markerText nn ++ substMarkers remap m.rest =
              '[' :: (("Source ".toList ++ natDigits nn ++ [']']) ++
                substMarkers remap m.rest) := by
            simp [markerText]
          have hmm := matchMarker_markerText nn (substMarkers remap m.rest)
          rw [hcons] at hmm
          rw [hcons, findMarkers_cons_some _ _ _ hmm]
          dsimp only
          simp only [List.map_cons, digitsToNat_natDigits]
          rw [ih m.rest (by omega)]
          simp [hr]
        | none =>
          dsimp only
          obtain ⟨body, hmatb, _⟩ := matchMarker_matched_no_lbracket _ m hm
          have hmm := matchMarker_stable _ m hm (substMarkers remap m.rest)
          have hcons : m.matched ++ substMarkers remap m.rest =
              '[' :: (body ++ substMarkers remap m.rest) := by
            rw [hmatb]
            simp
          rw [hcons] at hmm
          rw [hcons, findMarkers_cons_some _ _ _ hmm]
          dsimp only
          simp only [List.map_cons]
          rw [ih m.rest (by omega)]
          simp [hr]
      | none =>
        rw [substMarkers_cons_none remap c rest hm, findMarkers_cons_none c rest hm]
        rw [findMarkers_cons_none c _ (matchMarker_subst_none remap c rest hm)]
        exact ih rest (by omega)

/-- The assembled citations carry source numbers `1..m` in order. -/
theorem assembledCitations_sources (chunks : List RetrievedChunk) :
    (assembledCitations chunks).map (·.source) =
      List.range' 1 (assembledCitations chunks).length := by
  have h := buildSourcesGo_nums chunks [] (by simp)
  have h' : (buildSources chunks).map (·.2.source_num) =
      List.range' 1 (buildSources chunks).length := h
  have hcomp : ((fun c : Citation => c.source) ∘ fun p : (String × Nat) × SourceInfo =>
      ({ source := p.2.source_num, pdf_filename := p.2.pdf_filename,
         page := p.2.page, text_snippet := mkSnippet p.2.chunks } : Citation)) =
      fun p : (String × Nat) × SourceInfo => p.2.source_num := rfl
  rw [assembledCitations, mkCitations, List.map_map, hcomp]
  simpa using h'

theorem assembledCitations_pairwise (chunks : List RetrievedChunk) :
    List.Pairwise (fun a b => a.source < b.source) (assembledCitations chunks) := by
  have h := assembledCitations_sources chunks
  have hp : List.Pairwise (· < ·) ((assembledCitations chunks).map (·.source)) := by
    rw [h]
    exact List.pairwise_lt_range' _ _
  exact (List.pairwise_map).mp hp

/-- The citations being re-sorted by `generate_answer` are already in
ascending source order, so the sort is the identity on them. -/
theorem sortCitations_filter_eq (l : List Citation)
    (h : List.Pairwise (fun a b => a.source < b.source) l) (p : Citation → Bool) :
    sortCitations (l.filter p) = l.filter p := by
  have hf : List.Pairwise (fun a b => a.source < b.source) (l.filter p) :=
    h.sublist (List.filter_sublist l)
  have hs : List.Sorted (fun a b => a.source ≤ b.source) (l.filter p) :=
    hf.imp (fun hab => le_of_lt hab)
  exact List.Sorted.insertionSort_eq hs

theorem renumber_enumFrom_sources (l : List Citation) : ∀ n : Nat,
    ((List.enumFrom n l).map (fun p => { p.2 with source := p.1 + 1 })).map (·.source) =
      List.range' (n + 1) l.length := by
  induction l with
  | nil => intro n; rfl
  | cons c l ih =>
    intro n
    rw [show List.enumFrom n (c :: l) = (n, c) :: List.enumFrom (n + 1) l from rfl]
    simp only [List.map_cons, List.length_cons]
    rw [ih (n + 1), List.range'_succ (n + 1) l.length 1]

/-- `renumberCitations` produces the dense numbers `1..k`. -/
theorem renumber_sources (l : List Citation) :
    (renumberCitations l).map (·.source) = List.range' 1 l.length := by
  rw [renumberCitations]
  have h := renumber_enumFrom_sources l 0
  rw [show List.enum l = List.enumFrom 0 l from rfl]
  simpa using h

theorem renumber_enumFrom_content (l : List Citation) : ∀ n : Nat,
    ((List.enumFrom n l).map (fun p => { p.2 with source := p.1 + 1 })).map
      (fun c => (c.pdf_filename, c.page, c.text_snippet)) =
      l.map (fun c => (c.pdf_filename, c.page, c.text_snippet)) := by
  induction l with
  | nil => intro n; rfl
  | cons c l ih =>
    intro n
    rw [show List.enumFrom n (c :: l) = (n, c) :: List.enumFrom (n + 1) l from rfl]
    simp only [List.map_cons]
    rw [ih (n + 1)]

/-- `renumberCitations` keeps every citation's document, page and
snippet, in order. -/
theorem renumber_content (l : List Citation) :
    (renumberCitations l).map (fun c => (c.pdf_filename, c.page, c.text_snippet)) =
      l.map (fun c => (c.pdf_filename, c.page, c.text_snippet)) := by
  rw [renumberCitations, show List.enum l = List.enumFrom 0 l from rfl]
  exact renumber_enumFrom_content l 0

theorem renumber_length (l : List Citation) : (renumberCitations l).length = l.length := by
  simp [renumberCitations]

/-- With pairwise-distinct source numbers, the remap dict sends the
`i`-th kept citation's original number to index `i`. -/
theorem findIdx?_source_found (l : List Citation) :
    ∀ (i : Nat) (h : i < l.length), ((l.map (·.source)).Nodup) →
    ∀ start : Nat,
      l.findIdx? (fun c => decide (c.source = (l.get ⟨i, h⟩).source)) start =
        some (start + i) := by
  induction l with
  | nil => intro i h; exact absurd h (by simp)
  | cons a l ih =>
    intro i h hnd start
    rw [List.map_cons] at hnd
    obtain ⟨hna, hndl⟩ := List.nodup_cons.mp hnd
    cases i with
    | zero =>
      rw [List.findIdx?]
      simp
    | succ i =>
      rw [List.findIdx?]
      have hile : i < l.length := by simpa using h
      have hgeteq : ((a :: l).get ⟨i + 1, h⟩) = l.get ⟨i, hile⟩ := rfl
      have hmem : (l.get ⟨i, hile⟩).source ∈ l.map (·.source) :=
        List.mem_map_of_mem _ (List.get_mem l i hile)
      have hne : (decide (a.source = ((a :: l).get ⟨i + 1, h⟩).source)) = false := by
        rw [hgeteq]
        simp only [decide_eq_false_iff_not]
        intro he
        exact hna (he ▸ hmem)
      rw [hne]
      simp only [Bool.false_eq_true, if_false]
      rw [hgeteq, ih i hile hndl (start + 1)]
      congr 1
      omega

theorem findIdx?_none_of_all (l : List Citation) (p : Citation → Bool)
    (h : ∀ x ∈ l, p x = false) : ∀ start : Nat, l.findIdx? p start = none := by
  induction l with
  | nil => intro start; rfl
  | cons a l ih =>
    intro start
    rw [List.findIdx?]
    rw [h a (by simp)]
    simp only [Bool.false_eq_true, if_false]
    exact ih (fun x hx => h x (by simp [hx])) (start + 1)

/-- C5: when the raw LLM answer contains no valid citation marker (no
`[Source N]` whose `N` matches an assembled citation),
`generate_answer` returns all assembled citations unfiltered and
unrenumbered and the answer text unmodified (rag_system.py lines
319-321); no citation is discarded, and the reconciliation path raises
nothing (the embedding is a total function). -/
theorem generate_answer_fallback_no_citations (question : List Char) (question_type : String)
    (chunks : List RetrievedChunk) (raw : List Char) (hne : chunks ≠ [])
    (hnov : citedSourceNumbers raw (assembledCitations chunks) = []) :
    generate_answer question chunks question_type raw =
      { answer := raw, citations := assembledCitations chunks } := by
  rw [generate_answer, if_neg hne]
  dsimp only
  rw [if_pos hnov]

theorem generate_answer_fallback_no_citations_witness :
    exampleChunksThree ≠ []
    ∧ citedSourceNumbers "no markers here".toList (assembledCitations exampleChunksThree) = []
    ∧ generate_answer "q".toList exampleChunksThree "Default" "no markers here".toList =
        { answer := "no markers here".toList,
          citations := assembledCitations exampleChunksThree } :=
  ⟨by decide, by decide,
    generate_answer_fallback_no_citations "q".toList "Default" exampleChunksThree
      "no markers here".toList (by decide) (by decide)⟩

/-- C1: when the raw LLM answer contains at least one marker
`[Source N]` (matched case-insensitively) whose `N` equals the source
number of an assembled citation, `generate_answer` (rag_system.py lines
283-318) returns exactly the cited citations: the assembled citations
filtered to the cited numbers, in ascending original source order,
renumbered densely `1..k` — an order-preserving bijection from the kept
original numbers onto `{1..k}`: the `i`-th kept number maps to `i+1`
and nothing else is mapped — and the answer is rewritten so that, on a
re-scan, every marker occurrence whose number is kept carries that
source's unique new number and every marker matching no assembled
citation is unchanged. -/
theorem generate_answer_reconciles_citations (question : List Char) (question_type : String)
    (chunks : List RetrievedChunk) (raw : List Char) (kept : List Citation)
    (hne : chunks ≠ [])
    (hcited : citedSourceNumbers raw (assembledCitations chunks) ≠ [])
    (hkept : kept = filteredCitations (assembledCitations chunks)
      (citedSourceNumbers raw (assembledCitations chunks))) :
    (generate_answer question chunks question_type raw).citations = renumberCitations kept
    ∧ (generate_answer question chunks question_type raw).citations.map (·.source) =
        List.range' 1 kept.length
    ∧ (generate_answer question chunks question_type raw).citations.map
        (fun c => (c.pdf_filename, c.page, c.text_snippet)) =
        kept.map (fun c => (c.pdf_filename, c.page, c.text_snippet))
    ∧ List.Pairwise (· < ·) (kept.map (·.source))
    ∧ (∀ (i : Nat) (h : i < kept.length),
        sourceRemap kept ((kept.get ⟨i, h⟩).source) = some (i + 1))
    ∧ (∀ n : Nat, n ∉ kept.map (·.source) → sourceRemap kept n = none)
    ∧ (generate_answer question chunks question_type raw).answer =
        substMarkers (sourceRemap kept) raw
    ∧ (findMarkers (generate_answer question chunks question_type raw).answer).map
        digitsToNat =
        ((findMarkers raw).map digitsToNat).map (fun n => (sourceRemap kept n).getD n) := by
  have hpw := assembledCitations_pairwise chunks
  have hsq : sortCitations (filteredCitations (assembledCitations chunks)
      (citedSourceNumbers raw (assembledCitations chunks))) =
      filteredCitations (assembledCitations chunks)
        (citedSourceNumbers raw (assembledCitations chunks)) := by
    rw [filteredCitations]
    exact sortCitations_filter_eq _ hpw _
  have hgen : generate_answer question chunks question_type raw =
      { answer := substMarkers (sourceRemap kept) raw,
        citations := renumberCitations kept } := by
    rw [generate_answer, if_neg hne]
    dsimp only
    rw [if_neg hcited]
    rw [hsq, ← hkept]
  have hkpw : List.Pairwise (fun a b => a.source < b.source) kept := by
    rw [hkept, filteredCitations]
    exact hpw.sublist (List.filter_sublist _)
  have hkmap : List.Pairwise (· < ·) (kept.map (·.source)) := (List.pairwise_map).mpr hkpw
  have hknd : (kept.map (·.source)).Nodup := hkmap.imp (fun hab => Nat.ne_of_lt hab)
  refine ⟨?_, ?_, ?_, hkmap, ?_, ?_, ?_, ?_⟩
  · rw [hgen]
  · rw [hgen]
    exact renumber_sources kept
  · rw [hgen]
    exact renumber_content kept
  · intro i h
    rw [sourceRemap, findIdx?_source_found kept i h hknd 0]
    simp
  · intro n hn
    have hall : ∀ x ∈ kept, (fun c : Citation => decide (c.source = n)) x = false := by
      intro x hx
      simp only [decide_eq_false_iff_not]
      intro he
      exact hn (he ▸ List.mem_map_of_mem _ hx)
    rw [sourceRemap, findIdx?_none_of_all kept _ hall 0]
    rfl
  · rw [hgen]
  · rw [hgen]
    exact substMarkers_rescan (sourceRemap kept) raw.length raw le_rfl

theorem generate_answer_reconciles_citations_witness :
    exampleChunksThree ≠ []
    ∧ citedSourceNumbers exampleRawAnswer (assembledCitations exampleChunksThree) ≠ []
    ∧ ((generate_answer "q".toList exampleChunksThree "Default" exampleRawAnswer).citations =
        renumberCitations (filteredCitations (assembledCitations exampleChunksThree)
          (citedSourceNumbers exampleRawAnswer (assembledCitations exampleChunksThree)))
      ∧ (generate_answer "q".toList exampleChunksThree "Default"
            exampleRawAnswer).citations.map (·.source) =
          List.range' 1 (filteredCitations (assembledCitations exampleChunksThree)
            (citedSourceNumbers exampleRawAnswer
              (assembledCitations exampleChunksThree))).length
      ∧ (generate_answer "q".toList exampleChunksThree "Default"
            exampleRawAnswer).citations.map
            (fun c => (c.pdf_filename, c.page, c.text_snippet)) =
          (filteredCitations (assembledCitations exampleChunksThree)
            (citedSourceNumbers exampleRawAnswer (assembledCitations exampleChunksThree))).map
            (fun c => (c.pdf_filename, c.page, c.text_snippet))
      ∧ List.Pairwise (· < ·)
          ((filteredCitations (assembledCitations exampleChunksThree)
            (citedSourceNumbers exampleRawAnswer (assembledCitations exampleChunksThree))).map
            (·.source))
      ∧ (∀ (i : Nat) (h : i < (filteredCitations (assembledCitations exampleChunksThree)
            (citedSourceNumbers exampleRawAnswer
              (assembledCitations exampleChunksThree))).length),
          sourceRemap (filteredCitations (assembledCitations exampleChunksThree)
            (citedSourceNumbers exampleRawAnswer (assembledCitations exampleChunksThree)))
            (((filteredCitations (assembledCitations exampleChunksThree)
              (citedSourceNumbers exampleRawAnswer
                (assembledCitations exampleChunksThree))).get ⟨i, h⟩).source) = some (i + 1))
      ∧ (∀ n : Nat, n ∉ (filteredCitations (assembledCitations exampleChunksThree)
            (citedSourceNumbers exampleRawAnswer (assembledCitations exampleChunksThree))).map
            (·.source) →
          sourceRemap (filteredCitations (assembledCitations exampleChunksThree)
            (citedSourceNumbers exampleRawAnswer (assembledCitations exampleChunksThree)))
            n = none)
      ∧ (generate_answer "q".toList exampleChunksThree "Default" exampleRawAnswer).answer =
          substMarkers (sourceRemap (filteredCitations (assembledCitations exampleChunksThree)
            (citedSourceNumbers exampleRawAnswer (assembledCitations exampleChunksThree))))
            exampleRawAnswer
      ∧ (findMarkers (generate_answer "q".toList exampleChunksThree "Default"
            exampleRawAnswer).answer).map digitsToNat =
          ((findMarkers exampleRawAnswer).map digitsToNat).map
            (fun n => (sourceRemap (filteredCitations (assembledCitations exampleChunksThree)
              (citedSourceNumbers exampleRawAnswer (assembledCitations exampleChunksThree)))
              n).getD n)) :=
  ⟨by decide, by decide,
    generate_answer_reconciles_citations "q".toList "Default" exampleChunksThree
      exampleRawAnswer _ (by decide) (by decide) rfl⟩

theorem generate_answer_groups_by_source_witness :
    exampleChunksSameKey ≠ []
    ∧ (((buildSources exampleChunksSameKey).map (·.1) =
          firstSeenDedup (exampleChunksSameKey.map chunkKey))
      ∧ ((buildSources exampleChunksSameKey).map (·.1)).Nodup
      ∧ ((buildSources exampleChunksSameKey).map (·.2.source_num) =
          List.range' 1 (buildSources exampleChunksSameKey).length)
      ∧ (∀ p ∈ buildSources exampleChunksSameKey,
          p.2.chunks =
            (exampleChunksSameKey.filter (fun c => decide (chunkKey c = p.1))).map (·.text)
          ∧ p.2.pdf_filename = p.1.1 ∧ p.2.page = p.1.2)
      ∧ (mkCitations (buildSources exampleChunksSameKey)).length =
          (firstSeenDedup (exampleChunksSameKey.map chunkKey)).length
      ∧ contextParts (buildSources exampleChunksSameKey) =
          (buildSources exampleChunksSameKey).map (fun p =>
            "[Source ".toList ++ natDigits p.2.source_num ++ " - Page ".toList ++
              natDigits p.2.page ++ "]: ".toList ++
              List.intercalate [' ']
                ((exampleChunksSameKey.filter
                  (fun c => decide (chunkKey c = p.1))).map (·.text)))) :=
  ⟨by decide, generate_answer_groups_by_source exampleChunksSameKey (by decide)⟩

end InsightHub
